import Mathlib

/-!
Shallow embedding of the storage layer in pkg/storage/storage.go: key
resolution (getKey), metadata translation (prepareMetadata, parseMetadata),
directory detection (isDir), the object operations Get, Head and Delete,
and the listing engine (List, embedded here as ListOp), together with
models of the Go standard library string and path helpers they use.

The backend drivers (stow containers) and the outbound response type live
outside the analysed file; they are abstracted as plain data (`Backend`,
`Response`), following the specification's description of the backend
capability and of the outbound representation.

Partiality convention: Go run-time panics (failed type assertions on the
metadata map, out-of-range string indexing) are modelled by returning
`none`; a `some` result is a normal return.
-/

/-- ASCII lower-casing of one character.  Models Go `strings.ToLower`
restricted to ASCII, which is all the storage layer feeds it. -/
def asciiLower (c : Char) : Char :=
  if 65 ≤ c.toNat ∧ c.toNat ≤ 90 then Char.ofNat (c.toNat + 32) else c

/-- Models Go `strings.ToLower` on ASCII strings. -/
def lowerStr (s : String) : String := ⟨s.data.map asciiLower⟩

/-- `listIsPre p l` is true when `p` is a leading segment of `l`. -/
def listIsPre : List Char → List Char → Bool
  | [], _ => true
  | _ :: _, [] => false
  | a :: as, b :: bs => a == b && listIsPre as bs

/-- Models Go `strings.HasPrefix s pre`. -/
def strStarts (s pre : String) : Bool := listIsPre pre.data s.data

/-- True when the last byte of `s` is a path separator; models the Go
expression `s[len(s)-1] == '/'` for nonempty `s`. -/
def endsWithSlash (s : String) : Bool :=
  match s.data.reverse with
  | [] => false
  | c :: _ => c == '/'

/-- Models Go `strings.TrimPrefix`. -/
def trimPrefixStr (s pre : String) : String :=
  if strStarts s pre then ⟨s.data.drop pre.data.length⟩ else s

/-- Splitting a character list at every occurrence of `sep`; models Go
`strings.Split` (which yields `[""]` on the empty string). -/
def splitListOn (sep : Char) : List Char → List (List Char)
  | [] => [[]]
  | c :: rest =>
    if c = sep then [] :: splitListOn sep rest
    else
      match splitListOn sep rest with
      | [] => [[c]]
      | s :: ss => (c :: s) :: ss

/-- Models Go `strings.Split(s, "/")`. -/
def splitOnSlash (s : String) : List String :=
  (splitListOn '/' s.data).map (fun l => ⟨l⟩)

/-- Models Go `strings.Join(l, "/")`. -/
def joinSlash : List String → String
  | [] => ""
  | [s] => s
  | s :: rest => s ++ "/" ++ joinSlash rest

/-- One step of the lexical path-cleaning stack: drops empty and `.`
segments, resolves `..` against the stack (the stack is kept reversed). -/
def cleanStep (rooted : Bool) (acc : List String) (seg : String) : List String :=
  if seg = "" ∨ seg = "." then acc
  else if seg = ".." then
    match acc with
    | top :: rest => if top = ".." then ".." :: top :: rest else rest
    | [] => if rooted then [] else [".."]
  else seg :: acc

/-- Models Go `path.Clean`: lexical processing of `.`, `..` and repeated
separators, keeping a leading separator, never keeping a trailing one. -/
def goPathClean (p : String) : String :=
  if p = "" then "."
  else
    let rooted := strStarts p "/"
    let segs := splitOnSlash p
    let out := joinSlash (segs.foldl (cleanStep rooted) []).reverse
    if rooted then (if out = "" then "/" else "/" ++ out)
    else (if out = "" then "." else out)

/-- Models Go `path.Join`: the elements from the first nonempty one are
joined with separators and the result is cleaned; all-empty input gives
the empty string. -/
def goPathJoin : List String → String
  | [] => ""
  | e :: rest => if e = "" then goPathJoin rest else goPathClean (joinSlash (e :: rest))

/-- Index of the first occurrence of `pat` in a character list. -/
def findSubIdx (pat : List Char) : List Char → Option Nat
  | [] => if pat = [] then some 0 else none
  | c :: rest =>
    if listIsPre pat (c :: rest) then some 0
    else (findSubIdx pat rest).map (· + 1)

/-- Models Go `strings.Replace(s, pat, rep, 1)`: replaces the first
occurrence of `pat`, leaving `s` unchanged when `pat` does not occur. -/
def replaceFirst (s pat rep : String) : String :=
  match findSubIdx pat.data s.data with
  | none => s
  | some i => ⟨s.data.take i ++ rep.data ++ s.data.drop (i + pat.data.length)⟩

/-- Accumulator-based scan of the reversed character list looking for the
last `.` that follows the last `/`. -/
def extAux : List Char → List Char → String
  | _, [] => ""
  | acc, c :: rest =>
    if c = '/' then ""
    else if c = '.' then ⟨'.' :: acc⟩
    else extAux (c :: acc) rest

/-- Models Go `path.Ext`: the suffix starting at the final dot of the
final path element, or the empty string. -/
def goPathExt (p : String) : String := extAux [] p.data.reverse

/-- Modelled from the Go standard library `mime` package's builtin
extension table (`mime.TypeByExtension` without system overrides). -/
def mimeTypeByExtension (ext : String) : String :=
  match lowerStr ext with
  | ".css" => "text/css; charset=utf-8"
  | ".gif" => "image/gif"
  | ".htm" => "text/html; charset=utf-8"
  | ".html" => "text/html; charset=utf-8"
  | ".jpeg" => "image/jpeg"
  | ".jpg" => "image/jpeg"
  | ".js" => "text/javascript; charset=utf-8"
  | ".json" => "application/json"
  | ".mjs" => "text/javascript; charset=utf-8"
  | ".pdf" => "application/pdf"
  | ".png" => "image/png"
  | ".svg" => "image/svg+xml"
  | ".wasm" => "application/wasm"
  | ".webp" => "image/webp"
  | ".xml" => "text/xml; charset=utf-8"
  | _ => ""

/-- A value of the backend metadata map (`map[string]interface{}` in the
source); the storage layer only ever asserts these to `string` or `bool`. -/
inductive MetaVal where
  | str (s : String)
  | boolean (b : Bool)
deriving DecidableEq

/-- Go type assertion `v.(string)`; `none` models the run-time panic. -/
def MetaVal.asString : MetaVal → Option String
  | .str s => some s
  | .boolean _ => none

/-- Go type assertion `v.(bool)`; `none` models the run-time panic. -/
def MetaVal.asBool : MetaVal → Option Bool
  | .boolean b => some b
  | .str _ => none

/-- A backend timestamp, abstracted by its two renderings used in the
source: `Format(time.RFC3339)` and `UTC().Format(http.TimeFormat)`. -/
structure GoTime where
  rfc3339 : String
  httpFormat : String
deriving DecidableEq

/-- The zero `time.Time`, as produced by an ignored `LastMod` error. -/
def zeroTime : GoTime :=
  { rfc3339 := "0001-01-01T00:00:00Z"
    httpFormat := "Mon, 01 Jan 0001 00:00:00 GMT" }

/-- A stow item as seen by this layer.  Option-valued accessors model the
fallible calls (`Size`, `ETag`, `LastMod`, `Metadata`); `openOk` tells
whether `Open` succeeds. -/
structure Item where
  id : String
  name : String
  size : Option Int
  etag : Option String
  lastMod : Option GoTime
  metadata : Option (List (String × MetaVal))
  openOk : Bool
deriving DecidableEq

/-- Go map lookup `md[k]` on the metadata map. -/
def lookupMeta (md : List (String × MetaVal)) (k : String) : Option MetaVal :=
  (md.find? (fun p => p.1 == k)).map (fun p => p.2)

/-- Embeds `isDir` (storage.go): `is_dir` flag first, then the directory
sentinel content type, then zero size; metadata or size errors fall back
to `false`.  `none` models a panicking type assertion. -/
def isDir (item : Item) : Option Bool :=
  match item.metadata with
  | none => some false
  | some md =>
    match lookupMeta md "is_dir" with
    | some v => v.asBool
    | none =>
      match lookupMeta md "content-type" with
      | some v => (v.asString).map (fun ct => ct = "application/directory")
      | none =>
        match item.size with
        | none => some false
        | some sz => some (decide (sz = 0))

/-- The slice of the storage configuration consumed by the embedded
functions (`Kind` and `PathPrefix`); the remaining fields only feed the
backend dial, which is abstracted away. -/
structure StorageCfg where
  kind : String
  pathPrefix : String
deriving DecidableEq

/-- The logical object reference (`object.FileObject`): bucket, key, the
request URI path used for the extension fallback, and the storage
configuration. -/
structure FileObject where
  bucket : String
  key : String
  uriPath : String
  storage : StorageCfg
deriving DecidableEq

/-- Embeds `getKey` (storage.go): joins path prefix and key; for the `b2`
kind additionally trims a leading separator. -/
def getKey (obj : FileObject) : String :=
  if obj.storage.kind = "b2" then
    trimPrefixStr (goPathJoin [obj.storage.pathPrefix, obj.key]) "/"
  else
    goPathJoin [obj.storage.pathPrefix, obj.key]

/-- One `Contents` entry of the S3-style listing (`contentXML`). -/
structure ContentXML where
  key : String
  storageClass : String
  lastModified : String
  etag : String
  size : Int
deriving DecidableEq

/-- One `CommonPrefixes` entry of the S3-style listing
(`commonPrefixXML`); the field is the serialized `Prefix` element. -/
structure CommonPrefixXML where
  pfx : String
deriving DecidableEq

/-- The `listBucketResult` document built by the listing engine; `pfx`
embeds the `Prefix` field. -/
structure ListBucketResult where
  name : String
  pfx : String
  marker : String
  maxKeys : Int
  isTruncated : Bool
  contents : List ContentXML
  commonPrefixes : List CommonPrefixXML
deriving DecidableEq

/-- Modelled from the spec: the body of the outbound representation — a
content stream, a string payload, the serialized listing document, an
error payload, or nothing. -/
inductive Body where
  | empty
  | strBody (s : String)
  | streamBody
  | listXML (r : ListBucketResult)
  | errBody
deriving DecidableEq

/-- Modelled from the spec: the outbound representation (`response.Response`
of the surrounding project, which is outside the analysed file): status
code, header set, content type, content length and body. -/
structure Response where
  statusCode : Int
  headers : List (String × String)
  contentType : String
  contentLength : Int
  body : Body
deriving DecidableEq

/-- Replace-or-append update of a header association list. -/
def setAssoc (hs : List (String × String)) (k v : String) : List (String × String) :=
  if hs.any (fun p => p.1 = k) then hs.map (fun p => if p.1 = k then (k, v) else p)
  else hs ++ [(k, v)]

/-- Modelled from the spec: constructing an outbound representation with a
status code and an optional content stream (`response.New`). -/
def Response.new (code : Int) (stream : Option Unit) : Response :=
  { statusCode := code, headers := [], contentType := "", contentLength := 0
    body := match stream with | some _ => Body.streamBody | none => Body.empty }

/-- Modelled from the spec: an error representation (`response.NewError`). -/
def Response.newError (code : Int) : Response :=
  { statusCode := code, headers := [], contentType := "", contentLength := 0
    body := Body.errBody }

/-- Modelled from the spec: a string-payload representation
(`response.NewString`). -/
def Response.newString (code : Int) (s : String) : Response :=
  { statusCode := code, headers := [], contentType := "", contentLength := 0
    body := Body.strBody s }

/-- Modelled from the spec: an empty-body representation
(`response.NewNoContent`). -/
def Response.newNoContent (code : Int) : Response :=
  { statusCode := code, headers := [], contentType := "", contentLength := 0
    body := Body.empty }

/-- Modelled from the spec: a buffered representation holding the
serialized listing (`response.NewBuf`). -/
def Response.newBuf (code : Int) (r : ListBucketResult) : Response :=
  { statusCode := code, headers := [], contentType := "", contentLength := 0
    body := Body.listXML r }

/-- Modelled from the spec: setting one header (`res.Set`). -/
def Response.set (r : Response) (k v : String) : Response :=
  { r with headers := setAssoc r.headers k v }

/-- Modelled from the spec: setting the content type
(`res.SetContentType`). -/
def Response.setContentType (r : Response) (ct : String) : Response :=
  { r with contentType := ct }

/-- Reading one header back from a representation. -/
def getHeader (r : Response) (k : String) : Option String :=
  (r.headers.find? (fun p => p.1 == k)).map (fun p => p.2)

/-- Outcome of `client.Item(key)`. -/
inductive ItemRes where
  | notFound
  | itemErr
  | found (it : Item)
deriving DecidableEq

/-- Outcome of `client.Items(pfx, marker, maxKeys)`. -/
inductive ItemsRes where
  | err
  | ok (items : List Item) (marker : String)
deriving DecidableEq

/-- The backend capability borrowed through `getClient`: whether client
resolution fails (dial/container errors, mapped to 503), the item fetch,
the flat enumeration, and whether `RemoveItem` fails. -/
structure Backend where
  clientErr : Bool
  item : String → ItemRes
  items : String → String → Int → ItemsRes
  removeErr : String → Bool

/-- The fixed 404 payload of storage.go. -/
def notFound : String := "\x7b\"error\":\"item not found\"\x7d"

/-- The filter-and-lower loop of `prepareMetadata` over the request
headers; `none` models the panic on an empty header value slice. -/
def prepMetaLoop (obj : FileObject) :
    List (String × List String) → List (String × MetaVal) →
    Option (List (String × MetaVal))
  | [], acc => some acc
  | (k, vs) :: rest, acc =>
    if obj.storage.kind = "s3" then
      let kl := lowerStr k
      if strStarts kl "x-amz-meta" ∨ kl = "content-type" then
        match vs with
        | [] => none
        | v0 :: _ =>
          prepMetaLoop obj rest
            (setMeta acc (replaceFirst kl "x-amz-meta-" "") (MetaVal.str v0))
      else prepMetaLoop obj rest acc
    else
      let kl := lowerStr k
      if strStarts kl "x-amz-meta" ∨ kl = "content-type" ∨ kl = "etag" then
        match vs with
        | [] => none
        | v0 :: _ => prepMetaLoop obj rest (setMeta acc kl (MetaVal.str v0))
      else prepMetaLoop obj rest acc
where
  /-- Go map store `metadata[k] = v`. -/
  setMeta (m : List (String × MetaVal)) (k : String) (v : MetaVal) :
      List (String × MetaVal) :=
    if m.any (fun p => p.1 = k) then m.map (fun p => if p.1 = k then (k, v) else p)
    else m ++ [(k, v)]

/-- Embeds `prepareMetadata` (storage.go): keeps `content-type`, the
`x-amz-meta`-marked keys and (non-s3 only) `etag`; for the s3 kind the
first occurrence of `x-amz-meta-` is removed from the stored key; only
the first header value is kept. -/
def prepareMetadata (obj : FileObject) (metaHeaders : List (String × List String)) :
    Option (List (String × MetaVal)) :=
  prepMetaLoop obj metaHeaders []

/-- The cache-control step of the first `parseMetadata` loop. -/
def setIfCC (kl : String) (v : MetaVal) (res : Response) : Option Response :=
  if kl = "cache-control" then (v.asString).map (fun s => res.set kl s)
  else some res

/-- The `x-` pass-through step of the first `parseMetadata` loop. -/
def setIfX (kl : String) (v : MetaVal) (res : Response) : Option Response :=
  if strStarts kl "x-" then (v.asString).map (fun s => res.set kl s)
  else some res

/-- First loop of `parseMetadata`: lower-cases each key, passing through
`cache-control` and every `x-`-led key. -/
def parseMetaLoop1 : List (String × MetaVal) → Response → Option Response
  | [], res => some res
  | (k, v) :: rest, res =>
    match setIfCC (lowerStr k) v res with
    | none => none
    | some r1 =>
      match setIfX (lowerStr k) v r1 with
      | none => none
      | some r2 => parseMetaLoop1 rest r2

/-- One step of the s3 re-derivation loop of `parseMetadata`. -/
def setS3 (k : String) (v : MetaVal) (res : Response) : Option Response :=
  if k = "cache-control" ∨ k = "content-type" then
    (v.asString).map (fun s => res.set k s)
  else (v.asString).map (fun s => res.set ("x-amz-meta-" ++ k) s)

/-- Second loop of `parseMetadata`, run for the s3 kind only: every stored
key is re-emitted, `cache-control` and `content-type` unprefixed and all
others re-marked with `x-amz-meta-`. -/
def parseMetaLoop2 : List (String × MetaVal) → Response → Option Response
  | [], res => some res
  | (k, v) :: rest, res =>
    match setS3 k v res with
    | none => none
    | some r1 => parseMetaLoop2 rest r1

/-- Embeds `parseMetadata` (storage.go). -/
def parseMetadata (obj : FileObject) (md : List (String × MetaVal)) (res : Response) :
    Option Response :=
  match parseMetaLoop1 md res with
  | none => none
  | some r1 => if obj.storage.kind = "s3" then parseMetaLoop2 md r1 else some r1

/-- The content-type resolution tail of `prepareResponse`: `Content-Type`
from metadata, then `content-type`, then the extension of the request
path, then the directory sentinel. -/
def prepCT (obj : FileObject) (item : Item) (md : List (String × MetaVal))
    (res : Response) : Option Response :=
  match lookupMeta md "Content-Type" with
  | some v => (v.asString).map (fun ct => res.setContentType ct)
  | none =>
    match lookupMeta md "content-type" with
    | some v => (v.asString).map (fun ct => res.setContentType ct)
    | none =>
      if mimeTypeByExtension (goPathExt obj.uriPath) ≠ "" then
        some (res.setContentType (mimeTypeByExtension (goPathExt obj.uriPath)))
      else
        match isDir item with
        | none => none
        | some d =>
          some (if d then res.setContentType "application/directory" else res)

/-- The header block of `prepareResponse`: records the size as content
length when it is readable, then sets the `ETag` (when nonempty) and
`Last-Modified` headers. -/
def prepHdrs (item : Item) (etag : String) (lm : GoTime) (res : Response) : Response :=
  let res1 := match item.size with
    | some sz => { res with contentLength := sz }
    | none => res
  let res2 := if etag ≠ "" then res1.set "ETag" etag else res1
  res2.set "Last-Modified" lm.httpFormat

/-- The tail of `prepareResponse` after the metadata pass: reads etag and
last-modified (each error mapped to 500), applies the header block, and
resolves the content type. -/
def prepTail (obj : FileObject) (item : Item) (md : List (String × MetaVal))
    (res : Response) : Option Response :=
  match item.etag with
  | none => some (Response.newError 500)
  | some etag =>
    match item.lastMod with
    | none => some (Response.newError 500)
    | some lm => prepCT obj item md (prepHdrs item etag lm res)

/-- `prepareResponse` after its first line, parameterised by the already
constructed representation. -/
def prepAux (obj : FileObject) (item : Item) (res : Response) : Option Response :=
  match item.metadata with
  | none => some (Response.newError 500)
  | some md =>
    match parseMetadata obj md res with
    | none => none
    | some r1 => prepTail obj item md r1

/-- Embeds `prepareResponse` (storage.go). -/
def prepareResponse (obj : FileObject) (stream : Option Unit) (item : Item) :
    Option Response :=
  prepAux obj item (Response.new 200 stream)

/-- Embeds `Get` (storage.go): 503 on client failure, 404 with the fixed
payload on a missing item, 500 on other fetch or open errors, the 404
empty-body XML response on a directory, and the prepared representation
with the opened stream otherwise. -/
def Get (b : Backend) (obj : FileObject) : Option Response :=
  if b.clientErr then some (Response.newError 503)
  else
    match b.item (getKey obj) with
    | ItemRes.notFound => some (Response.newString 404 notFound)
    | ItemRes.itemErr => some (Response.newError 500)
    | ItemRes.found item =>
      match isDir item with
      | none => none
      | some d =>
        if d = false then
          if item.openOk then prepareResponse obj (some ()) item
          else some (Response.newError 500)
        else some ((Response.newNoContent 404).setContentType "application/xml")

/-- Embeds `Head` (storage.go): the same client and item error mapping as
`Get`, then the prepared representation with a nil stream — with no
directory branch. -/
def Head (b : Backend) (obj : FileObject) : Option Response :=
  if b.clientErr then some (Response.newError 503)
  else
    match b.item (getKey obj) with
    | ItemRes.notFound => some (Response.newString 404 notFound)
    | ItemRes.itemErr => some (Response.newError 500)
    | ItemRes.found item => prepareResponse obj none item

/-- Embeds `Delete` (storage.go): client failure maps to 503; a
preliminary `Head` drives the outcome — 200 leads to removal (failure
maps to 500, success returns the Head response), 404 is answered with an
empty 200, and any other Head response is returned unchanged. -/
def Delete (b : Backend) (obj : FileObject) : Option Response :=
  if b.clientErr then some (Response.newError 503)
  else
    match Head b obj with
    | none => none
    | some resHead =>
      if resHead.statusCode = 200 then
        if b.removeErr (getKey obj) then some (Response.newError 500)
        else some resHead
      else if resHead.statusCode = 404 then some (Response.newNoContent 200)
      else some resHead

/-- The branch of the listing loop that chooses the content key, the
common-prefix value and the updated seen-set for one item: items with
more path segments than the effective enumeration path are truncated to
its segment count (deduplicated through the seen-set); the remaining
items use the item name, emitted as a common prefix when they are
directories not seen before.  `none` models the type-assertion panic
inside `isDir`. -/
def listStep (pfx : String) (item : Item) (seen : List String) :
    Option (String × String × List String) :=
  let filePath := splitOnSlash item.id
  let prefixPath := splitOnSlash pfx
  if filePath.length > prefixPath.length then
    let key := joinSlash (filePath.take prefixPath.length)
    if seen.contains key then some (key, "", seen)
    else some (key, key, key :: seen)
  else
    match isDir item with
    | none => none
    | some d =>
      let key := item.name
      if d ∧ ¬ seen.contains key then some (key, key, key :: seen)
      else some (key, "", seen)

/-- Appending one item's content entry and common-prefix entry to the
listing under construction: an id with a trailing separator forces a
trailing separator on the key and a zero size; a nonempty key yields a
content entry and a nonempty common prefix a `CommonPrefixes` entry. -/
def listAccum (item : Item) (key commonPfx : String) (result : ListBucketResult) :
    ListBucketResult :=
  let lastMod := item.lastMod.getD zeroTime
  let size := item.size.getD 0
  let etag := item.etag.getD ""
  let key2 := if endsWithSlash item.id then key ++ "/" else key
  let size2 : Int := if endsWithSlash item.id then 0 else size
  let result2 :=
    if key2 ≠ "" then
      { result with contents := result.contents ++
          [{ key := key2, storageClass := "STANDARD"
             lastModified := lastMod.rfc3339, etag := etag, size := size2 }] }
    else result
  if commonPfx ≠ "" then
    { result2 with commonPrefixes := result2.commonPrefixes ++ [⟨commonPfx ++ "/"⟩] }
  else result2

/-- The per-item loop of the listing engine.  `none` models the
out-of-range panic on an empty item id (and a panicking type assertion
inside `isDir`). -/
def listLoop (pfx : String) :
    List Item → List String → ListBucketResult → Option ListBucketResult
  | [], _, result => some result
  | item :: rest, seen, result =>
    match listStep pfx item seen with
    | none => none
    | some (key, commonPfx, seen2) =>
      if item.id = "" then none
      else listLoop pfx rest seen2 (listAccum item key commonPfx result)

/-- Embeds `List` (storage.go); the third argument models the unused
delimiter parameter.  The effective enumeration path joins the configured
path prefix with the caller's; for the `local-meta` kind a nonempty,
non-root effective path must itself resolve to an item. -/
def ListOp (b : Backend) (obj : FileObject) (maxKeys : Int) (_delim : String)
    (pfx0 : String) (marker : String) : Option Response :=
  if b.clientErr then some (Response.newError 503)
  else
    let pfx := goPathJoin [obj.storage.pathPrefix, pfx0]
    if pfx ≠ "" ∧ pfx ≠ "/" ∧ obj.storage.kind = "local-meta" ∧
        b.item pfx = ItemRes.notFound then
      some (Response.newString 404 obj.key)
    else
      match b.items pfx marker maxKeys with
      | ItemsRes.err => some (Response.newError 500)
      | ItemsRes.ok items resultMarker =>
        let res0 : ListBucketResult :=
          { name := obj.bucket, pfx := pfx, marker := resultMarker
            maxKeys := maxKeys, isTruncated := false, contents := [], commonPrefixes := [] }
        match listLoop pfx items [] res0 with
        | none => none
        | some result =>
          some ((Response.newBuf 200 result).setContentType "application/xml")

/-! ### Concrete instances used by witnesses and counterexamples -/

/-- A plain local-kind object reference. -/
def oLocal : FileObject := ⟨"bkt", "k", "", ⟨"local", ""⟩⟩

/-- An s3-kind object reference. -/
def oS3 : FileObject := ⟨"bkt", "k", "", ⟨"s3", ""⟩⟩

/-- The object reference used for the listing evaluation. -/
def oList : FileObject := ⟨"bkt", "", "", ⟨"local", ""⟩⟩

/-- A flat item with the given id and size. -/
def flatItem (idv : String) (sz : Int) : Item :=
  ⟨idv, idv, some sz, some "ET", some ⟨"LM", "LMH"⟩, some [], true⟩

/-- Backend yielding the flat ids a/b, a/c, a/d/e. -/
def bC1 : Backend :=
  ⟨false, fun _ => ItemRes.notFound,
   fun _ _ _ => ItemsRes.ok [flatItem "a/b" 1, flatItem "a/c" 2, flatItem "a/d/e" 3] "",
   fun _ => false⟩

/-- A directory-shaped item (explicit is_dir flag). -/
def dirItem : Item :=
  ⟨"d/", "d", some 0, some "", some ⟨"t", "T"⟩, some [("is_dir", MetaVal.boolean true)], false⟩

/-- Backend resolving every key to `dirItem`. -/
def bDir : Backend :=
  ⟨false, fun _ => ItemRes.found dirItem, fun _ _ _ => ItemsRes.err, fun _ => false⟩

/-- A regular file item with empty metadata. -/
def fileItem : Item := ⟨"f", "f", some 7, some "e", some ⟨"t", "T"⟩, some [], true⟩

/-- Backend resolving every key to `fileItem`. -/
def bFile : Backend :=
  ⟨false, fun _ => ItemRes.found fileItem, fun _ _ _ => ItemsRes.err, fun _ => false⟩

/-- Backend whose item fetch always reports not-found. -/
def bNF : Backend :=
  ⟨false, fun _ => ItemRes.notFound, fun _ _ _ => ItemsRes.err, fun _ => false⟩

/-- Backend whose item fetch always fails with a non-not-found error. -/
def bErr : Backend :=
  ⟨false, fun _ => ItemRes.itemErr, fun _ _ _ => ItemsRes.err, fun _ => false⟩

/-- Backend whose client resolution fails. -/
def b503 : Backend :=
  ⟨true, fun _ => ItemRes.notFound, fun _ _ _ => ItemsRes.err, fun _ => false⟩

/-- Backend resolving to `fileItem` whose removal fails. -/
def bRF : Backend :=
  ⟨false, fun _ => ItemRes.found fileItem, fun _ _ _ => ItemsRes.err, fun _ => true⟩

/-- The response `Head` assembles for `fileItem` under `oLocal`. -/
def respFile : Response :=
  ⟨200, [("ETag", "e"), ("Last-Modified", "T")], "", 7, Body.empty⟩

/-- An item whose metadata carries both case variants of the content type. -/
def itemBoth : Item :=
  ⟨"f", "f", some 3, some "e", some ⟨"t", "T"⟩,
   some [("Content-Type", MetaVal.str "text/html"), ("content-type", MetaVal.str "text/plain")],
   true⟩

/-- An item whose metadata carries only the canonical content-type key. -/
def itemCTW : Item :=
  ⟨"f", "f", some 3, some "e", some ⟨"t", "T"⟩,
   some [("Content-Type", MetaVal.str "text/html")], true⟩

/-- A listed item with a nonempty id below the enumeration path. -/
def itemGood : Item := ⟨"p/x", "x", some 1, some "", some ⟨"t", "T"⟩, some [], true⟩

/-- A listed item with an empty id. -/
def itemNoId : Item := ⟨"", "x", some 1, some "", some ⟨"t", "T"⟩, some [], true⟩

/-- Backend listing a single empty-id item. -/
def bEmptyId : Backend :=
  ⟨false, fun _ => ItemRes.notFound, fun _ _ _ => ItemsRes.ok [itemNoId] "", fun _ => false⟩

/-- Backend listing a single well-formed item. -/
def bGoodIds : Backend :=
  ⟨false, fun _ => ItemRes.notFound, fun _ _ _ => ItemsRes.ok [itemGood] "", fun _ => false⟩

/-- Backend listing nothing and handing back the marker mk2. -/
def bList : Backend :=
  ⟨false, fun _ => ItemRes.notFound, fun _ _ _ => ItemsRes.ok [] "mk2", fun _ => false⟩

/-- The listing document built over `bList`. -/
def r9 : ListBucketResult := ⟨"bkt", "", "mk2", 5, false, [], []⟩

/-- The response wrapping `r9`. -/
def res9 : Response := ⟨200, [], "application/xml", 0, Body.listXML r9⟩

/-! ### Easy closed theorems -/

/-- C1: evaluating the listing engine on a backend that yields exactly the
flat ids a/b, a/c and a/d/e under logical enumeration path a/ with an
empty configured path prefix.  The path join first cleans the trailing
separator away, so every item falls into the deeper-sub-path branch with
a one-segment effective path: all three content entries carry the
truncated key a, and the single deduplicated common prefix is a/ — not
content entries a/b and a/c with common prefix a/d/ as the specification
states. -/
theorem list_flat_keys_eval :
    ListOp bC1 oList 1000 "" "a/" "" = some
      { statusCode := 200, headers := [], contentType := "application/xml", contentLength := 0
        body := Body.listXML
          { name := "bkt", pfx := "a", marker := "", maxKeys := 1000, isTruncated := false
            contents := [⟨"a", "STANDARD", "LM", "ET", 1⟩, ⟨"a", "STANDARD", "LM", "ET", 2⟩,
                         ⟨"a", "STANDARD", "LM", "ET", 3⟩]
            commonPrefixes := [⟨"a/"⟩] } } := by decide

/-- C2 counterexample: over a backend resolving the key to a directory
item, Get answers 404 while Head answers 200 — Head does not share Get's
directory branch. -/
theorem head_dir_cex :
    Get bDir oLocal = some
      { statusCode := 404, headers := [], contentType := "application/xml"
        contentLength := 0, body := Body.empty } ∧
    (Head bDir oLocal).map Response.statusCode = some 200 := by decide

/-- C4 counterexample: for the s3 kind with an empty path prefix and the
logical key a/, the resolved native key is a — the trailing separator of
the logical key is not kept, because the path join cleans it away. -/
theorem getKey_trailing_cex :
    endsWithSlash (FileObject.key ⟨"b", "a/", "", ⟨"s3", ""⟩⟩) = true ∧
    getKey ⟨"b", "a/", "", ⟨"s3", ""⟩⟩ = "a" ∧
    endsWithSlash (getKey ⟨"b", "a/", "", ⟨"s3", ""⟩⟩) = false := by decide

/-- C5 counterexample: for the local (non-s3) kind the marked header
X-Amz-Meta-Foo is stored under the lower-cased key x-amz-meta-foo — the
custom-metadata marker is not stripped, so no entry foo exists. -/
theorem prepareMetadata_strip_cex :
    prepareMetadata ⟨"b", "k", "", ⟨"local", ""⟩⟩ [("X-Amz-Meta-Foo", ["bar"])] =
      some [("x-amz-meta-foo", MetaVal.str "bar")] ∧
    lookupMeta [("x-amz-meta-foo", MetaVal.str "bar")] "foo" = none := by decide

/-- C6 counterexample: when the stored metadata carries both Content-Type
and content-type, the response content type is the Content-Type value —
the code checks the capitalised key first, not content-type first as the
claim states. -/
theorem contentType_order_cex :
    (prepareResponse oLocal none itemBoth).map Response.contentType = some "text/html" ∧
    lookupMeta [("Content-Type", MetaVal.str "text/html"),
        ("content-type", MetaVal.str "text/plain")] "content-type" =
      some (MetaVal.str "text/plain") ∧
    ("text/html" : String) ≠ "text/plain" := by decide

/-- C7: s3 metadata round-trip — the inbound translation stores
x-amz-meta-color: red as color: red, and the outbound translation
re-emits it as the response header x-amz-meta-color: red; Content-Type:
text/plain is stored as content-type and re-emitted unprefixed. -/
theorem metadata_roundtrip_s3 :
    prepareMetadata oS3 [("x-amz-meta-color", ["red"])] =
      some [("color", MetaVal.str "red")] ∧
    (parseMetadata oS3 [("color", MetaVal.str "red")] (Response.new 200 none)).map
      (fun r => getHeader r "x-amz-meta-color") = some (some "red") ∧
    prepareMetadata oS3 [("Content-Type", ["text/plain"])] =
      some [("content-type", MetaVal.str "text/plain")] ∧
    (parseMetadata oS3 [("content-type", MetaVal.str "text/plain")]
        (Response.new 200 none)).map
      (fun r => (getHeader r "content-type", getHeader r "x-amz-meta-content-type")) =
      some (some "text/plain", none) := by decide

/-! ### Helper lemmas: the response body does not influence the rest of
the assembled representation -/

/-- Agreement of two representations on everything except the body. -/
def sameCore (r1 r2 : Response) : Prop :=
  r1.statusCode = r2.statusCode ∧ r1.headers = r2.headers ∧
  r1.contentType = r2.contentType ∧ r1.contentLength = r2.contentLength

/-- `sameCore` lifted to optional representations; `none` (a modelled
panic) only agrees with `none`. -/
def sameCoreOpt : Option Response → Option Response → Prop
  | none, none => True
  | some r1, some r2 => sameCore r1 r2
  | _, _ => False

theorem sameCore_symm {r1 r2 : Response} (h : sameCore r1 r2) : sameCore r2 r1 :=
  ⟨h.1.symm, h.2.1.symm, h.2.2.1.symm, h.2.2.2.symm⟩

theorem sameCoreOpt_symm {x y : Option Response} (h : sameCoreOpt x y) : sameCoreOpt y x := by
  cases x <;> cases y <;> first
    | trivial
    | exact sameCore_symm h

theorem sameCoreOpt_map_body (x : Option Response) (b : Body) :
    sameCoreOpt (x.map (fun s => { s with body := b })) x := by
  cases x with
  | none => trivial
  | some r => exact ⟨rfl, rfl, rfl, rfl⟩

theorem setIfCC_body (kl : String) (v : MetaVal) (r : Response) (b : Body) :
    setIfCC kl v { r with body := b } = (setIfCC kl v r).map (fun s => { s with body := b }) := by
  unfold setIfCC
  split
  · cases v.asString <;> rfl
  · rfl

theorem setIfX_body (kl : String) (v : MetaVal) (r : Response) (b : Body) :
    setIfX kl v { r with body := b } = (setIfX kl v r).map (fun s => { s with body := b }) := by
  unfold setIfX
  split
  · cases v.asString <;> rfl
  · rfl

theorem setS3_body (k : String) (v : MetaVal) (r : Response) (b : Body) :
    setS3 k v { r with body := b } = (setS3 k v r).map (fun s => { s with body := b }) := by
  unfold setS3
  split
  · cases v.asString <;> rfl
  · cases v.asString <;> rfl

theorem parseMetaLoop1_body (md : List (String × MetaVal)) :
    ∀ (r : Response) (b : Body),
    parseMetaLoop1 md { r with body := b } =
      (parseMetaLoop1 md r).map (fun s => { s with body := b }) := by
  induction md with
  | nil => intro r b; rfl
  | cons kv rest ih =>
    intro r b
    obtain ⟨k, v⟩ := kv
    simp only [parseMetaLoop1]
    rw [setIfCC_body]
    cases h1 : setIfCC (lowerStr k) v r with
    | none => rfl
    | some r1 =>
      simp only [Option.map_some']
      rw [setIfX_body]
      cases h2 : setIfX (lowerStr k) v r1 with
      | none => rfl
      | some r2 => simp only [Option.map_some']; exact ih r2 b

theorem parseMetaLoop2_body (md : List (String × MetaVal)) :
    ∀ (r : Response) (b : Body),
    parseMetaLoop2 md { r with body := b } =
      (parseMetaLoop2 md r).map (fun s => { s with body := b }) := by
  induction md with
  | nil => intro r b; rfl
  | cons kv rest ih =>
    intro r b
    obtain ⟨k, v⟩ := kv
    simp only [parseMetaLoop2]
    rw [setS3_body]
    cases h1 : setS3 k v r with
    | none => rfl
    | some r1 => simp only [Option.map_some']; exact ih r1 b

theorem parseMetadata_body (obj : FileObject) (md : List (String × MetaVal))
    (r : Response) (b : Body) :
    parseMetadata obj md { r with body := b } =
      (parseMetadata obj md r).map (fun s => { s with body := b }) := by
  unfold parseMetadata
  rw [parseMetaLoop1_body]
  cases h1 : parseMetaLoop1 md r with
  | none => rfl
  | some r1 =>
    simp only [Option.map_some']
    split
    · rw [parseMetaLoop2_body]
    · rfl

theorem prepCT_body (obj : FileObject) (item : Item) (md : List (String × MetaVal))
    (r : Response) (b : Body) :
    prepCT obj item md { r with body := b } =
      (prepCT obj item md r).map (fun s => { s with body := b }) := by
  unfold prepCT
  cases hct : lookupMeta md "Content-Type" with
  | some v => cases hvs : v.asString <;> simp [hvs, Response.setContentType]
  | none =>
    simp only []
    cases hct2 : lookupMeta md "content-type" with
    | some v => cases hvs : v.asString <;> simp [hvs, Response.setContentType]
    | none =>
      simp only []
      split
      · simp [Response.setContentType]
      · cases hd : isDir item with
        | none => rfl
        | some d => cases d <;> simp [Response.setContentType]

theorem prepHdrs_body (item : Item) (etag : String) (lm : GoTime) (r : Response) (b : Body) :
    prepHdrs item etag lm { r with body := b } =
      { prepHdrs item etag lm r with body := b } := by
  unfold prepHdrs
  cases item.size <;> by_cases hE : etag ≠ "" <;> simp [hE, Response.set]

theorem prepTail_core (obj : FileObject) (item : Item) (md : List (String × MetaVal))
    (r : Response) (b : Body) :
    sameCoreOpt (prepTail obj item md { r with body := b }) (prepTail obj item md r) := by
  unfold prepTail
  cases item.etag with
  | none => exact ⟨rfl, rfl, rfl, rfl⟩
  | some etag =>
    cases item.lastMod with
    | none => exact ⟨rfl, rfl, rfl, rfl⟩
    | some lm =>
      simp only []
      rw [prepHdrs_body, prepCT_body]
      exact sameCoreOpt_map_body _ b

theorem prepAux_core (obj : FileObject) (item : Item) (r : Response) (b : Body) :
    sameCoreOpt (prepAux obj item { r with body := b }) (prepAux obj item r) := by
  unfold prepAux
  cases item.metadata with
  | none => exact ⟨rfl, rfl, rfl, rfl⟩
  | some md =>
    simp only []
    rw [parseMetadata_body]
    cases h : parseMetadata obj md r with
    | none => trivial
    | some r1 => simp only [Option.map_some']; exact prepTail_core obj item md r1 b

/-! ### Helper lemmas: the metadata pass and header block never change the
status code or the body of the representation under construction -/

theorem setIfCC_pres (kl : String) (v : MetaVal) (r s : Response)
    (h : setIfCC kl v r = some s) : s.statusCode = r.statusCode ∧ s.body = r.body := by
  unfold setIfCC at h
  split at h
  · cases hvs : v.asString with
    | none => simp [hvs] at h
    | some a => simp [hvs] at h; subst h; exact ⟨rfl, rfl⟩
  · cases h; exact ⟨rfl, rfl⟩

theorem setIfX_pres (kl : String) (v : MetaVal) (r s : Response)
    (h : setIfX kl v r = some s) : s.statusCode = r.statusCode ∧ s.body = r.body := by
  unfold setIfX at h
  split at h
  · cases hvs : v.asString with
    | none => simp [hvs] at h
    | some a => simp [hvs] at h; subst h; exact ⟨rfl, rfl⟩
  · cases h; exact ⟨rfl, rfl⟩

theorem setS3_pres (k : String) (v : MetaVal) (r s : Response)
    (h : setS3 k v r = some s) : s.statusCode = r.statusCode ∧ s.body = r.body := by
  unfold setS3 at h
  split at h <;>
    cases hvs : v.asString with
    | none => simp [hvs] at h
    | some a => simp [hvs] at h; subst h; exact ⟨rfl, rfl⟩

theorem parseMetaLoop1_pres (md : List (String × MetaVal)) :
    ∀ (r s : Response), parseMetaLoop1 md r = some s →
    s.statusCode = r.statusCode ∧ s.body = r.body := by
  induction md with
  | nil => intro r s h; cases h; exact ⟨rfl, rfl⟩
  | cons kv rest ih =>
    intro r s h
    obtain ⟨k, v⟩ := kv
    simp only [parseMetaLoop1] at h
    cases h1 : setIfCC (lowerStr k) v r with
    | none => simp [h1] at h
    | some r1 =>
      simp only [h1] at h
      cases h2 : setIfX (lowerStr k) v r1 with
      | none => simp [h2] at h
      | some r2 =>
        simp only [h2] at h
        have p1 := setIfCC_pres _ _ _ _ h1
        have p2 := setIfX_pres _ _ _ _ h2
        have p3 := ih r2 s h
        exact ⟨p3.1.trans (p2.1.trans p1.1), p3.2.trans (p2.2.trans p1.2)⟩

theorem parseMetaLoop2_pres (md : List (String × MetaVal)) :
    ∀ (r s : Response), parseMetaLoop2 md r = some s →
    s.statusCode = r.statusCode ∧ s.body = r.body := by
  induction md with
  | nil => intro r s h; cases h; exact ⟨rfl, rfl⟩
  | cons kv rest ih =>
    intro r s h
    obtain ⟨k, v⟩ := kv
    simp only [parseMetaLoop2] at h
    cases h1 : setS3 k v r with
    | none => simp [h1] at h
    | some r1 =>
      simp only [h1] at h
      have p1 := setS3_pres _ _ _ _ h1
      have p3 := ih r1 s h
      exact ⟨p3.1.trans p1.1, p3.2.trans p1.2⟩

theorem parseMetadata_pres (obj : FileObject) (md : List (String × MetaVal))
    (r s : Response) (h : parseMetadata obj md r = some s) :
    s.statusCode = r.statusCode ∧ s.body = r.body := by
  unfold parseMetadata at h
  cases h1 : parseMetaLoop1 md r with
  | none => simp [h1] at h
  | some r1 =>
    simp only [h1] at h
    split at h
    · have p2 := parseMetaLoop2_pres md r1 s h
      have p1 := parseMetaLoop1_pres md r r1 h1
      exact ⟨p2.1.trans p1.1, p2.2.trans p1.2⟩
    · injection h with h2
      subst h2
      exact parseMetaLoop1_pres md r _ h1

theorem prepHdrs_pres (item : Item) (etag : String) (lm : GoTime) (r : Response) :
    (prepHdrs item etag lm r).statusCode = r.statusCode ∧
    (prepHdrs item etag lm r).body = r.body := by
  unfold prepHdrs
  cases item.size <;> by_cases hE : etag ≠ "" <;> simp [hE, Response.set]

theorem prepCT_pres (obj : FileObject) (item : Item) (md : List (String × MetaVal))
    (r s : Response) (h : prepCT obj item md r = some s) :
    s.statusCode = r.statusCode ∧ s.body = r.body := by
  unfold prepCT at h
  cases hct : lookupMeta md "Content-Type" with
  | some v =>
    cases hvs : v.asString with
    | none => simp [hct, hvs] at h
    | some a => simp [hct, hvs] at h; subst h; exact ⟨rfl, rfl⟩
  | none =>
    cases hct2 : lookupMeta md "content-type" with
    | some v =>
      cases hvs : v.asString with
      | none => simp [hct, hct2, hvs] at h
      | some a => simp [hct, hct2, hvs] at h; subst h; exact ⟨rfl, rfl⟩
    | none =>
      simp only [hct, hct2] at h
      split at h
      · cases h; exact ⟨rfl, rfl⟩
      · cases hd : isDir item with
        | none => simp [hd] at h
        | some d =>
          simp only [hd] at h
          cases h
          cases d <;> exact ⟨rfl, rfl⟩

theorem prepTail_pres (obj : FileObject) (item : Item) (md : List (String × MetaVal))
    (r s : Response) (h : prepTail obj item md r = some s) :
    s = Response.newError 500 ∨ (s.statusCode = r.statusCode ∧ s.body = r.body) := by
  unfold prepTail at h
  cases he : item.etag with
  | none => simp [he] at h; exact Or.inl h.symm
  | some etag =>
    simp only [he] at h
    cases hl : item.lastMod with
    | none => simp [hl] at h; exact Or.inl h.symm
    | some lm =>
      simp only [hl] at h
      have hp := prepCT_pres obj item md _ s h
      have hh := prepHdrs_pres item etag lm r
      exact Or.inr ⟨hp.1.trans hh.1, hp.2.trans hh.2⟩

theorem prepAux_pres (obj : FileObject) (item : Item) (r s : Response)
    (h : prepAux obj item r = some s) :
    s = Response.newError 500 ∨ (s.statusCode = r.statusCode ∧ s.body = r.body) := by
  unfold prepAux at h
  cases hm : item.metadata with
  | none => simp [hm] at h; exact Or.inl h.symm
  | some md =>
    simp only [hm] at h
    cases hp : parseMetadata obj md r with
    | none => simp [hp] at h
    | some r1 =>
      simp only [hp] at h
      rcases prepTail_pres obj item md r1 s h with h1 | h1
      · exact Or.inl h1
      · have p := parseMetadata_pres obj md r r1 hp
        exact Or.inr ⟨h1.1.trans p.1, h1.2.trans p.2⟩

theorem prepareResponse_pres (obj : FileObject) (stream : Option Unit) (item : Item)
    (s : Response) (h : prepareResponse obj stream item = some s) :
    s = Response.newError 500 ∨
      (s.statusCode = 200 ∧ s.body = (Response.new 200 stream).body) :=
  prepAux_pres obj item _ s h

/-! ### Claim theorems on the object operations -/

/-- C2 (amended): Head shares Get's client and item error mapping and
never opens the content stream, but it lacks Get's directory
special-case: on a directory item Get answers the empty-body 404 XML
response while Head assembles the metadata response and never answers
404; on a non-directory item whose stream opens, Head agrees with Get on
status, headers, content type and content length, with Get carrying the
stream and Head a nil body. -/
theorem head_get_agree (b : Backend) (obj : FileObject) (item : Item) :
    (b.clientErr = true →
      Head b obj = Get b obj ∧ Head b obj = some (Response.newError 503)) ∧
    (b.clientErr = false → b.item (getKey obj) = ItemRes.notFound →
      Head b obj = Get b obj ∧ Head b obj = some (Response.newString 404 notFound)) ∧
    (b.clientErr = false → b.item (getKey obj) = ItemRes.itemErr →
      Head b obj = Get b obj ∧ Head b obj = some (Response.newError 500)) ∧
    (b.clientErr = false → b.item (getKey obj) = ItemRes.found item →
      (isDir item = some true →
        Get b obj = some ((Response.newNoContent 404).setContentType "application/xml") ∧
        ∀ rh, Head b obj = some rh → rh.statusCode ≠ 404) ∧
      (isDir item = some false → item.openOk = true →
        sameCoreOpt (Get b obj) (Head b obj) ∧
        ∀ rg rh, Get b obj = some rg → Head b obj = some rh → rg.statusCode = 200 →
          rg.body = Body.streamBody ∧ rh.body = Body.empty)) := by
  refine ⟨fun hc => ⟨?_, ?_⟩, fun hc hi => ⟨?_, ?_⟩, fun hc hi => ⟨?_, ?_⟩,
    fun hc hit => ?_⟩
  · simp [Head, Get, hc]
  · simp [Head, hc]
  · simp [Head, Get, hc, hi]
  · simp [Head, hc, hi]
  · simp [Head, Get, hc, hi]
  · simp [Head, hc, hi]
  have hH : Head b obj = prepareResponse obj none item := by
    simp [Head, hc, hit]
  constructor
  · intro hd
    constructor
    · simp [Get, hc, hit, hd]
    · intro rh hrh
      rw [hH] at hrh
      rcases prepareResponse_pres obj none item rh hrh with h | ⟨h200, _⟩
      · rw [h]; decide
      · rw [h200]; decide
  · intro hd ho
    have hG : Get b obj = prepareResponse obj (some ()) item := by
      simp [Get, hc, hit, hd, ho]
    have hcore : sameCoreOpt (Get b obj) (Head b obj) := by
      rw [hG, hH]
      unfold prepareResponse
      rw [show (Response.new 200 none) =
        { Response.new 200 (some ()) with body := Body.empty } from rfl]
      exact sameCoreOpt_symm (prepAux_core obj item (Response.new 200 (some ())) Body.empty)
    refine ⟨hcore, fun rg rh hrg hrh h200 => ?_⟩
    have hsc : sameCore rg rh := by
      rw [hrg, hrh] at hcore
      exact hcore
    constructor
    · rw [hG] at hrg
      rcases prepareResponse_pres obj (some ()) item rg hrg with h | ⟨_, hbody⟩
      · rw [h] at h200
        exact absurd h200 (by decide)
      · exact hbody
    · rw [hH] at hrh
      rcases prepareResponse_pres obj none item rh hrh with h | ⟨_, hbody⟩
      · have h2 : rh.statusCode = 200 := hsc.1 ▸ h200
        rw [h] at h2
        exact absurd h2 (by decide)
      · exact hbody

/-- C2 witness: Head and Get coincide on the client-failure, not-found
and item-error backends; at the directory backend Get answers the 404
XML response; at the file backend Get and Head agree outside the body. -/
theorem head_get_agree_w :
    Head b503 oLocal = Get b503 oLocal ∧
    Head bNF oLocal = Get bNF oLocal ∧
    Head bErr oLocal = Get bErr oLocal ∧
    Get bDir oLocal = some ((Response.newNoContent 404).setContentType "application/xml") ∧
    sameCoreOpt (Get bFile oLocal) (Head bFile oLocal) :=
  ⟨((head_get_agree b503 oLocal dirItem).1 rfl).1,
   ((head_get_agree bNF oLocal dirItem).2.1 rfl rfl).1,
   ((head_get_agree bErr oLocal dirItem).2.2.1 rfl rfl).1,
   (((head_get_agree bDir oLocal dirItem).2.2.2 rfl rfl).1 (by decide)).1,
   (((head_get_agree bFile oLocal fileItem).2.2.2 rfl rfl).2 (by decide) rfl).1⟩

/-- C3: Delete is idempotent with respect to absence — when the
preliminary Head answers 404 Delete answers the empty 200 response;
when Head answers 200 and the backend removal fails Delete answers 500;
any other Head outcome is returned unchanged. -/
theorem delete_idempotent (b : Backend) (obj : FileObject) (rh : Response)
    (hc : b.clientErr = false) (hH : Head b obj = some rh) :
    (rh.statusCode = 404 → Delete b obj = some (Response.newNoContent 200)) ∧
    (rh.statusCode = 200 → b.removeErr (getKey obj) = true →
      Delete b obj = some (Response.newError 500)) ∧
    (rh.statusCode ≠ 200 → rh.statusCode ≠ 404 → Delete b obj = some rh) := by
  refine ⟨fun h404 => ?_, fun h200 hrem => ?_, fun hn2 hn4 => ?_⟩
  · simp [Delete, hc, hH, h404]
  · simp [Delete, hc, hH, h200, hrem]
  · simp [Delete, hc, hH, hn2, hn4]

/-- C3 witness: deleting an absent key answers 200, a failing removal of a
present key answers 500, and a 500 Head outcome is passed through. -/
theorem delete_idempotent_w :
    Delete bNF oLocal = some (Response.newNoContent 200) ∧
    Delete bRF oLocal = some (Response.newError 500) ∧
    Delete bErr oLocal = some (Response.newError 500) :=
  ⟨(delete_idempotent bNF oLocal (Response.newString 404 notFound) rfl rfl).1 rfl,
   (delete_idempotent bRF oLocal respFile rfl (by decide)).2.1 rfl rfl,
   (delete_idempotent bErr oLocal (Response.newError 500) rfl rfl).2.2
     (by decide) (by decide)⟩

/-- C8: Get's error mapping — a client resolution failure answers 503; a
backend not-found answers 404 carrying exactly the fixed JSON payload;
any other item-fetch error answers 500; a directory-shaped item answers
404 with an empty body and the XML content type. -/
theorem get_error_mapping (b : Backend) (obj : FileObject) (item : Item) :
    (b.clientErr = true → Get b obj = some (Response.newError 503)) ∧
    (b.clientErr = false → b.item (getKey obj) = ItemRes.notFound →
      Get b obj = some (Response.newString 404 notFound) ∧
      (Response.newString 404 notFound).statusCode = 404 ∧
      (Response.newString 404 notFound).body =
        Body.strBody "\x7b\"error\":\"item not found\"\x7d") ∧
    (b.clientErr = false → b.item (getKey obj) = ItemRes.itemErr →
      Get b obj = some (Response.newError 500)) ∧
    (b.clientErr = false → b.item (getKey obj) = ItemRes.found item →
      isDir item = some true →
      Get b obj = some ((Response.newNoContent 404).setContentType "application/xml") ∧
      ((Response.newNoContent 404).setContentType "application/xml").statusCode = 404 ∧
      ((Response.newNoContent 404).setContentType "application/xml").body = Body.empty ∧
      ((Response.newNoContent 404).setContentType "application/xml").contentType =
        "application/xml") := by
  refine ⟨fun hc => ?_, fun hc hi => ⟨?_, by decide, by decide⟩,
    fun hc hi => ?_, fun hc hi hd => ⟨?_, by decide, by decide, by decide⟩⟩
  · simp [Get, hc]
  · simp [Get, hc, hi]
  · simp [Get, hc, hi]
  · simp [Get, hc, hi, hd]

/-- C8 witness: the four error branches of Get at concrete backends. -/
theorem get_error_mapping_w :
    Get b503 oLocal = some (Response.newError 503) ∧
    Get bNF oLocal = some (Response.newString 404 notFound) ∧
    Get bErr oLocal = some (Response.newError 500) ∧
    Get bDir oLocal = some ((Response.newNoContent 404).setContentType "application/xml") :=
  ⟨(get_error_mapping b503 oLocal dirItem).1 rfl,
   ((get_error_mapping bNF oLocal dirItem).2.1 rfl rfl).1,
   (get_error_mapping bErr oLocal dirItem).2.2.1 rfl rfl,
   ((get_error_mapping bDir oLocal dirItem).2.2.2 rfl rfl (by decide)).1⟩

/-! ### Helper lemmas: the cleaned path join never ends in a separator -/

/-- A segment kept by the cleaning stack: nonempty and separator-free. -/
def goodSeg (s : String) : Prop := s ≠ "" ∧ ('/' : Char) ∉ s.data

theorem strDataNe {s : String} : s ≠ "" ↔ s.data ≠ [] := by
  cases s with
  | mk l =>
    constructor
    · intro h hd
      exact h (congrArg String.mk hd)
    · intro h h2
      exact h (congrArg String.data h2)

theorem splitListOn_ne_nil (sep : Char) (l : List Char) : splitListOn sep l ≠ [] := by
  induction l with
  | nil => simp [splitListOn]
  | cons c rest ih =>
    simp only [splitListOn]
    split
    · simp
    · cases h : splitListOn sep rest with
      | nil => exact absurd h ih
      | cons s ss => simp

theorem splitListOn_no_sep (sep : Char) :
    ∀ (l : List Char), ∀ s ∈ splitListOn sep l, sep ∉ s := by
  intro l
  induction l with
  | nil =>
    intro s hs
    simp [splitListOn] at hs
    subst hs
    simp
  | cons c rest ih =>
    intro s hs
    simp only [splitListOn] at hs
    by_cases hc : c = sep
    · rw [if_pos hc] at hs
      rcases List.mem_cons.mp hs with rfl | hs2
      · simp
      · exact ih s hs2
    · rw [if_neg hc] at hs
      cases h : splitListOn sep rest with
      | nil => exact absurd h (splitListOn_ne_nil sep rest)
      | cons s0 ss =>
        rw [h] at hs
        rcases List.mem_cons.mp hs with rfl | hs2
        · intro hmem
          rcases List.mem_cons.mp hmem with rfl | hmem2
          · exact hc rfl
          · exact ih s0 (h ▸ List.mem_cons_self s0 ss) hmem2
        · exact ih s (h ▸ List.mem_cons_of_mem s0 hs2)

theorem cleanStep_good (rooted : Bool) (acc : List String) (seg : String)
    (hacc : ∀ s ∈ acc, goodSeg s) (hseg : ('/' : Char) ∉ seg.data) :
    ∀ s ∈ cleanStep rooted acc seg, goodSeg s := by
  intro s hs
  unfold cleanStep at hs
  split at hs
  · exact hacc s hs
  · split at hs
    · cases acc with
      | nil =>
        simp only [] at hs
        split at hs
        · simp at hs
        · simp at hs
          subst hs
          exact ⟨by decide, by decide⟩
      | cons top rest =>
        simp only [] at hs
        split at hs
        · rcases List.mem_cons.mp hs with rfl | hs2
          · exact ⟨by decide, by decide⟩
          · exact hacc s hs2
        · exact hacc s (List.mem_cons_of_mem top hs)
    · rcases List.mem_cons.mp hs with rfl | hs2
      · rename_i h1 _
        exact ⟨fun he => h1 (Or.inl he), hseg⟩
      · exact hacc s hs2

theorem foldl_cleanStep_good (rooted : Bool) :
    ∀ (segs : List String) (acc : List String),
    (∀ s ∈ acc, goodSeg s) → (∀ s ∈ segs, ('/' : Char) ∉ s.data) →
    ∀ s ∈ segs.foldl (cleanStep rooted) acc, goodSeg s := by
  intro segs
  induction segs with
  | nil => intro acc hacc _ s hs; exact hacc s hs
  | cons e rest ih =>
    intro acc hacc hsegs s hs
    simp only [List.foldl_cons] at hs
    exact ih (cleanStep rooted acc e)
      (cleanStep_good rooted acc e hacc (hsegs e (List.mem_cons_self e rest)))
      (fun t ht => hsegs t (List.mem_cons_of_mem e ht)) s hs

theorem endsWithSlash_append (a b : String) (hb : b.data ≠ []) :
    endsWithSlash (a ++ b) = endsWithSlash b := by
  unfold endsWithSlash
  rw [show (a ++ b).data = a.data ++ b.data from rfl, List.reverse_append]
  cases hbr : b.data.reverse with
  | nil =>
    exact absurd (by simpa using congrArg List.reverse hbr) hb
  | cons c cs => simp

theorem joinSlash_data_ne (l : List String) (h : ∀ s ∈ l, s ≠ "") (hl : l ≠ []) :
    (joinSlash l).data ≠ [] := by
  cases l with
  | nil => exact absurd rfl hl
  | cons s rest =>
    cases rest with
    | nil =>
      exact strDataNe.mp (h s (List.mem_cons_self s []))
    | cons t rest2 =>
      intro hemp
      have h2 : s.data ++ ['/'] ++ (joinSlash (t :: rest2)).data = [] := hemp
      simp at h2

theorem endsWithSlash_joinSlash (l : List String) (h : ∀ s ∈ l, goodSeg s) :
    endsWithSlash (joinSlash l) = false := by
  induction l with
  | nil => decide
  | cons s rest ih =>
    cases rest with
    | nil =>
      show endsWithSlash s = false
      unfold endsWithSlash
      cases hr : s.data.reverse with
      | nil => rfl
      | cons c cs =>
        have hc : c ∈ s.data := by
          have hm : c ∈ s.data.reverse := by
            rw [hr]; exact List.mem_cons_self c cs
          exact List.mem_reverse.mp hm
        have hne : c ≠ '/' := fun he => (h s (List.mem_cons_self s [])).2 (he ▸ hc)
        exact beq_eq_false_iff_ne.mpr hne
    | cons t rest2 =>
      rw [show joinSlash (s :: t :: rest2) = (s ++ "/") ++ joinSlash (t :: rest2) from rfl]
      rw [endsWithSlash_append _ _ (joinSlash_data_ne (t :: rest2)
        (fun x hx => (h x (List.mem_cons_of_mem s hx)).1) (by simp))]
      exact ih (fun x hx => h x (List.mem_cons_of_mem s hx))

theorem goPathClean_no_trailing (p : String) :
    goPathClean p = "/" ∨ endsWithSlash (goPathClean p) = false := by
  unfold goPathClean
  split
  · right; decide
  · simp only []
    have hsegs : ∀ s ∈ splitOnSlash p, ('/' : Char) ∉ s.data := by
      intro s hs
      obtain ⟨l, hl, rfl⟩ := List.mem_map.mp hs
      exact splitListOn_no_sep '/' p.data l hl
    have hgood : ∀ s ∈ ((splitOnSlash p).foldl (cleanStep (strStarts p "/")) []).reverse,
        goodSeg s := by
      intro s hs
      exact foldl_cleanStep_good (strStarts p "/") (splitOnSlash p) [] (by simp) hsegs s
        (List.mem_reverse.mp hs)
    have hout := endsWithSlash_joinSlash _ hgood
    split
    · split
      · left; rfl
      · right
        rename_i hne
        rw [endsWithSlash_append "/" _ (strDataNe.mp hne)]
        exact hout
    · split
      · right; decide
      · right; exact hout

theorem goPathJoin_no_trailing (l : List String) :
    goPathJoin l = "/" ∨ endsWithSlash (goPathJoin l) = false := by
  induction l with
  | nil => right; decide
  | cons e rest ih =>
    simp only [goPathJoin]
    split
    · exact ih
    · exact goPathClean_no_trailing _

/-- C4 (amended): key resolution joins the path prefix and the logical
key with the cleaning POSIX join for every kind, and only the b2 kind
additionally strips a leading separator; because the join cleans the
path, the native key never keeps a trailing separator (except when it is
the bare root), even when the logical key ends with one. -/
theorem getKey_spec (obj : FileObject) :
    (obj.storage.kind = "b2" →
      getKey obj = trimPrefixStr (goPathJoin [obj.storage.pathPrefix, obj.key]) "/") ∧
    (obj.storage.kind ≠ "b2" →
      getKey obj = goPathJoin [obj.storage.pathPrefix, obj.key] ∧
      (getKey obj = "/" ∨ endsWithSlash (getKey obj) = false)) := by
  constructor
  · intro h; simp [getKey, h]
  · intro h
    have he : getKey obj = goPathJoin [obj.storage.pathPrefix, obj.key] := by
      simp [getKey, h]
    exact ⟨he, he ▸ goPathJoin_no_trailing _⟩

/-- C4 witness: the b2 kind strips the leading separator of the joined
key while the s3 kind keeps it, and the s3 native key carries no trailing
separator. -/
theorem getKey_spec_w :
    getKey ⟨"b", "/b", "", ⟨"b2", "/a"⟩⟩ = trimPrefixStr (goPathJoin ["/a", "/b"]) "/" ∧
    getKey ⟨"b", "/b", "", ⟨"s3", "/a"⟩⟩ = goPathJoin ["/a", "/b"] ∧
    (getKey ⟨"b", "/b", "", ⟨"s3", "/a"⟩⟩ = "/" ∨
      endsWithSlash (getKey ⟨"b", "/b", "", ⟨"s3", "/a"⟩⟩) = false) :=
  ⟨(getKey_spec ⟨"b", "/b", "", ⟨"b2", "/a"⟩⟩).1 rfl,
   ((getKey_spec ⟨"b", "/b", "", ⟨"s3", "/a"⟩⟩).2 (by decide)).1,
   ((getKey_spec ⟨"b", "/b", "", ⟨"s3", "/a"⟩⟩).2 (by decide)).2⟩

/-! ### Claim theorems on the metadata translation -/

theorem setMeta_mem (m : List (String × MetaVal)) (k : String) (v : MetaVal)
    (p : String × MetaVal) (hp : p ∈ prepMetaLoop.setMeta m k v) :
    p ∈ m ∨ p = (k, v) := by
  unfold prepMetaLoop.setMeta at hp
  split at hp
  · obtain ⟨q, hq, hfq⟩ := List.mem_map.mp hp
    by_cases hqk : q.1 = k
    · right
      rw [if_pos hqk] at hfq
      exact hfq.symm
    · left
      rw [if_neg hqk] at hfq
      exact hfq ▸ hq
  · rcases List.mem_append.mp hp with h | h
    · exact Or.inl h
    · right
      simpa using h

theorem prepMetaLoop_keeps (obj : FileObject) :
    ∀ (hs : List (String × List String)) (acc m : List (String × MetaVal)),
    prepMetaLoop obj hs acc = some m →
    ∀ p ∈ m, p ∈ acc ∨ ∃ q ∈ hs, ∃ v0 vs, q.2 = v0 :: vs ∧ p.2 = MetaVal.str v0 ∧
      (obj.storage.kind = "s3" →
        (strStarts (lowerStr q.1) "x-amz-meta" = true ∨ lowerStr q.1 = "content-type") ∧
        p.1 = replaceFirst (lowerStr q.1) "x-amz-meta-" "") ∧
      (obj.storage.kind ≠ "s3" →
        (strStarts (lowerStr q.1) "x-amz-meta" = true ∨ lowerStr q.1 = "content-type" ∨
          lowerStr q.1 = "etag") ∧
        p.1 = lowerStr q.1) := by
  intro hs
  induction hs with
  | nil =>
    intro acc m h p hp
    cases h
    exact Or.inl hp
  | cons kv rest ih =>
    intro acc m h p hp
    obtain ⟨k, vs⟩ := kv
    simp only [prepMetaLoop] at h
    split at h
    · -- s3 kind
      rename_i hkind
      split at h
      · rename_i hfil
        cases vs with
        | nil => simp at h
        | cons v0 vtl =>
          simp only [] at h
          rcases ih _ m h p hp with hmem | ⟨q, hq, v0', vs', hq2, hp2, hcl⟩
          · rcases setMeta_mem _ _ _ p hmem with h2 | h2
            · exact Or.inl h2
            · right
              refine ⟨(k, v0 :: vtl), List.mem_cons_self _ _, v0, vtl, rfl, ?_, ?_, ?_⟩
              · rw [h2]
              · intro _
                exact ⟨hfil, by rw [h2]⟩
              · intro hne
                exact absurd hkind hne
          · right
            exact ⟨q, List.mem_cons_of_mem _ hq, v0', vs', hq2, hp2, hcl⟩
      · rcases ih _ m h p hp with hmem | ⟨q, hq, hrest⟩
        · exact Or.inl hmem
        · right
          exact ⟨q, List.mem_cons_of_mem _ hq, hrest⟩
    · -- non-s3 kind
      rename_i hkind
      split at h
      · rename_i hfil
        cases vs with
        | nil => simp at h
        | cons v0 vtl =>
          simp only [] at h
          rcases ih _ m h p hp with hmem | ⟨q, hq, v0', vs', hq2, hp2, hcl⟩
          · rcases setMeta_mem _ _ _ p hmem with h2 | h2
            · exact Or.inl h2
            · right
              refine ⟨(k, v0 :: vtl), List.mem_cons_self _ _, v0, vtl, rfl, ?_, ?_, ?_⟩
              · rw [h2]
              · intro hs3
                exact absurd hs3 hkind
              · intro _
                exact ⟨hfil, by rw [h2]⟩
          · right
            exact ⟨q, List.mem_cons_of_mem _ hq, v0', vs', hq2, hp2, hcl⟩
      · rcases ih _ m h p hp with hmem | ⟨q, hq, hrest⟩
        · exact Or.inl hmem
        · right
          exact ⟨q, List.mem_cons_of_mem _ hq, hrest⟩

/-- C5 (amended): every entry of the stored metadata map comes from a
request header whose lower-cased name carries the x-amz-meta marker, or
equals content-type, or — for non-s3 kinds only — etag; the stored value
is the first value of that header; for the s3 kind the stored key is the
lower-cased name with the first occurrence of the marker removed, while
for every other kind it is the lower-cased name kept whole. -/
theorem prepareMetadata_keeps (obj : FileObject) (hs : List (String × List String))
    (m : List (String × MetaVal)) (hm : prepareMetadata obj hs = some m) :
    ∀ p ∈ m, ∃ q ∈ hs, ∃ v0 vs, q.2 = v0 :: vs ∧ p.2 = MetaVal.str v0 ∧
      (obj.storage.kind = "s3" →
        (strStarts (lowerStr q.1) "x-amz-meta" = true ∨ lowerStr q.1 = "content-type") ∧
        p.1 = replaceFirst (lowerStr q.1) "x-amz-meta-" "") ∧
      (obj.storage.kind ≠ "s3" →
        (strStarts (lowerStr q.1) "x-amz-meta" = true ∨ lowerStr q.1 = "content-type" ∨
          lowerStr q.1 = "etag") ∧
        p.1 = lowerStr q.1) := by
  intro p hp
  rcases prepMetaLoop_keeps obj hs [] m hm p hp with h | h
  · simp at h
  · exact h

/-- C5 witness: the stored entry (a, 1) produced from the s3 header
X-Amz-Meta-A is accounted for by the theorem. -/
theorem prepareMetadata_keeps_w :
    ∃ q ∈ [("X-Amz-Meta-A", (["1"] : List String))], ∃ v0 vs, q.2 = v0 :: vs ∧
      (("a", MetaVal.str "1") : String × MetaVal).2 = MetaVal.str v0 ∧
      (oS3.storage.kind = "s3" →
        (strStarts (lowerStr q.1) "x-amz-meta" = true ∨ lowerStr q.1 = "content-type") ∧
        (("a", MetaVal.str "1") : String × MetaVal).1 =
          replaceFirst (lowerStr q.1) "x-amz-meta-" "") ∧
      (oS3.storage.kind ≠ "s3" →
        (strStarts (lowerStr q.1) "x-amz-meta" = true ∨ lowerStr q.1 = "content-type" ∨
          lowerStr q.1 = "etag") ∧
        (("a", MetaVal.str "1") : String × MetaVal).1 = lowerStr q.1) :=
  prepareMetadata_keeps oS3 [("X-Amz-Meta-A", ["1"])] [("a", MetaVal.str "1")]
    (by decide) ("a", MetaVal.str "1") (by simp)

/-- C6 (amended): for a successfully assembled read response, the content
type is resolved in this order — the metadata key Content-Type first,
then content-type, then the MIME type of the request path's extension,
then, only for a directory item, the directory sentinel. -/
theorem contentType_resolution (obj : FileObject) (stream : Option Unit) (item : Item)
    (md : List (String × MetaVal))
    (hmd : item.metadata = some md)
    (hok : (prepareResponse obj stream item).map Response.statusCode = some 200) :
    (∀ ct, lookupMeta md "Content-Type" = some (MetaVal.str ct) →
      (prepareResponse obj stream item).map Response.contentType = some ct) ∧
    (∀ ct, lookupMeta md "Content-Type" = none →
      lookupMeta md "content-type" = some (MetaVal.str ct) →
      (prepareResponse obj stream item).map Response.contentType = some ct) ∧
    (lookupMeta md "Content-Type" = none → lookupMeta md "content-type" = none →
      mimeTypeByExtension (goPathExt obj.uriPath) ≠ "" →
      (prepareResponse obj stream item).map Response.contentType =
        some (mimeTypeByExtension (goPathExt obj.uriPath))) ∧
    (lookupMeta md "Content-Type" = none → lookupMeta md "content-type" = none →
      mimeTypeByExtension (goPathExt obj.uriPath) = "" → isDir item = some true →
      (prepareResponse obj stream item).map Response.contentType =
        some "application/directory") := by
  cases hres0 : prepareResponse obj stream item with
  | none => rw [hres0] at hok; simp at hok
  | some res =>
    have hsc : res.statusCode = 200 := by
      rw [hres0] at hok
      simpa using hok
    have h1 : prepAux obj item (Response.new 200 stream) = some res := hres0
    unfold prepAux at h1
    rw [hmd] at h1
    simp only [] at h1
    cases hpm : parseMetadata obj md (Response.new 200 stream) with
    | none => rw [hpm] at h1; simp at h1
    | some r1 =>
      rw [hpm] at h1
      simp only [] at h1
      unfold prepTail at h1
      cases hetag : item.etag with
      | none =>
        rw [hetag] at h1
        simp only [] at h1
        injection h1 with h2
        rw [← h2] at hsc
        exact absurd hsc (by decide)
      | some etag =>
        rw [hetag] at h1
        simp only [] at h1
        cases hlm : item.lastMod with
        | none =>
          rw [hlm] at h1
          simp only [] at h1
          injection h1 with h2
          rw [← h2] at hsc
          exact absurd hsc (by decide)
        | some lm =>
          rw [hlm] at h1
          simp only [] at h1
          refine ⟨?_, ?_, ?_, ?_⟩
          · intro ct hct
            unfold prepCT at h1
            rw [hct] at h1
            simp only [MetaVal.asString, Option.map_some'] at h1
            injection h1 with h2
            simp only [Option.map_some']
            rw [← h2]
            rfl
          · intro ct hct1 hct2
            unfold prepCT at h1
            rw [hct1] at h1
            simp only [] at h1
            rw [hct2] at h1
            simp only [MetaVal.asString, Option.map_some'] at h1
            injection h1 with h2
            simp only [Option.map_some']
            rw [← h2]
            rfl
          · intro hct1 hct2 hmime
            unfold prepCT at h1
            rw [hct1] at h1
            simp only [] at h1
            rw [hct2] at h1
            simp only [] at h1
            rw [if_pos hmime] at h1
            injection h1 with h2
            simp only [Option.map_some']
            rw [← h2]
            rfl
          · intro hct1 hct2 hmime hdir
            unfold prepCT at h1
            rw [hct1] at h1
            simp only [] at h1
            rw [hct2] at h1
            simp only [] at h1
            rw [if_neg (by simp [hmime])] at h1
            rw [hdir] at h1
            simp only [if_pos] at h1
            injection h1 with h2
            simp only [Option.map_some']
            rw [← h2]
            rfl

/-- C6 witness: on an item whose metadata carries only the Content-Type
key, the assembled response carries that value. -/
theorem contentType_resolution_w :
    (prepareResponse oLocal none itemCTW).map Response.contentType = some "text/html" :=
  (contentType_resolution oLocal none itemCTW [("Content-Type", MetaVal.str "text/html")]
    rfl (by decide)).1 "text/html" rfl

/-! ### Claim theorems on the listing engine -/

theorem listAccum_fields (item : Item) (key commonPfx : String)
    (result : ListBucketResult) :
    (listAccum item key commonPfx result).isTruncated = result.isTruncated ∧
    (listAccum item key commonPfx result).marker = result.marker := by
  unfold listAccum
  simp only []
  split <;> split <;> split <;> exact ⟨rfl, rfl⟩

theorem listLoop_pres (pfx : String) :
    ∀ (items : List Item) (seen : List String) (res0 res' : ListBucketResult),
    listLoop pfx items seen res0 = some res' →
    res'.isTruncated = res0.isTruncated ∧ res'.marker = res0.marker := by
  intro items
  induction items with
  | nil =>
    intro seen res0 res' h
    cases h
    exact ⟨rfl, rfl⟩
  | cons it rest ih =>
    intro seen res0 res' h
    simp only [listLoop] at h
    cases hstep : listStep pfx it seen with
    | none => rw [hstep] at h; simp at h
    | some triple =>
      obtain ⟨key, cp, seen2⟩ := triple
      rw [hstep] at h
      simp only [] at h
      split at h
      · simp at h
      · have hi := ih seen2 (listAccum it key cp res0) res' h
        have hf := listAccum_fields it key cp res0
        exact ⟨hi.1.trans hf.1, hi.2.trans hf.2⟩

/-- C9: a successful listing always reports IsTruncated as false — even
when the backend hands back a nonempty continuation marker — and its
Marker field is the backend's result marker, not the caller-supplied
one. -/
theorem list_not_truncated (b : Backend) (obj : FileObject) (maxKeys : Int)
    (dl pfx0 marker : String) (items : List Item) (rm : String) (res : Response)
    (r : ListBucketResult)
    (hitems : b.items (goPathJoin [obj.storage.pathPrefix, pfx0]) marker maxKeys =
      ItemsRes.ok items rm)
    (hres : ListOp b obj maxKeys dl pfx0 marker = some res)
    (hbody : res.body = Body.listXML r) :
    r.isTruncated = false ∧ r.marker = rm := by
  unfold ListOp at hres
  split at hres
  · injection hres with h2
    rw [← h2] at hbody
    simp [Response.newError] at hbody
  · simp only [] at hres
    split at hres
    · injection hres with h2
      rw [← h2] at hbody
      simp [Response.newString] at hbody
    · rw [hitems] at hres
      simp only [] at hres
      split at hres
      · simp at hres
      · rename_i result hloop
        injection hres with h2
        rw [← h2] at hbody
        simp [Response.newBuf, Response.setContentType] at hbody
        have hp := listLoop_pres _ _ _ _ _ hloop
        rw [← hbody]
        exact ⟨hp.1, hp.2⟩

/-- C9 witness: an empty listing whose backend returns the marker mk2
while the caller supplied mk1. -/
theorem list_not_truncated_w : r9.isTruncated = false ∧ r9.marker = "mk2" :=
  list_not_truncated bList oLocal 5 "" "" "mk1" [] "mk2" res9 r9 rfl (by decide) rfl

theorem listStep_none (pfx : String) (it : Item) (seen : List String)
    (h : listStep pfx it seen = none) : isDir it = none := by
  unfold listStep at h
  simp only [] at h
  split at h
  · split at h <;> simp at h
  · cases hd : isDir it with
    | none => rfl
    | some d =>
      rw [hd] at h
      simp only [] at h
      split at h <;> simp at h

theorem listLoop_none_iff (pfx : String) :
    ∀ (items : List Item) (seen : List String) (res : ListBucketResult),
    (∀ it ∈ items, isDir it ≠ none) →
    (listLoop pfx items seen res = none ↔
      items.any (fun it => it.id == "") = true) := by
  intro items
  induction items with
  | nil =>
    intro seen res _
    simp [listLoop]
  | cons it rest ih =>
    intro seen res hdir
    simp only [listLoop]
    cases hstep : listStep pfx it seen with
    | none =>
      exact absurd (listStep_none pfx it seen hstep)
        (hdir it (List.mem_cons_self it rest))
    | some triple =>
      obtain ⟨key, cp, seen2⟩ := triple
      by_cases hid : it.id = ""
      · simp [hid]
      · have htail := ih seen2 (listAccum it key cp res)
          (fun x hx => hdir x (List.mem_cons_of_mem it hx))
        simp [hid, htail]

theorem listOp_none_aux (pfx : String) (items : List Item) (res0 : ListBucketResult)
    (hdir : ∀ it ∈ items, isDir it ≠ none) :
    ((match listLoop pfx items [] res0 with
      | none => (none : Option Response)
      | some result =>
        some ((Response.newBuf 200 result).setContentType "application/xml")) = none ↔
      items.any (fun it => it.id == "") = true) := by
  cases hloop : listLoop pfx items [] res0 with
  | none =>
    simpa using (listLoop_none_iff pfx items [] res0 hdir).mp hloop
  | some result =>
    have hne : ¬ (items.any (fun it => it.id == "") = true) := fun hany => by
      have h2 := (listLoop_none_iff pfx items [] res0 hdir).mpr hany
      rw [hloop] at h2
      cases h2
    simp [hne]

/-- C10: the listing loop indexes the last byte of each item id without a
guard — over well-typed metadata, the operation fails to complete
normally exactly when some listed item has an empty id, and under the
precondition that every id is nonempty that failure is unreachable. -/
theorem list_empty_id (b : Backend) (obj : FileObject) (maxKeys : Int)
    (dl pfx0 marker : String) (items : List Item) (rm : String)
    (hc : b.clientErr = false)
    (hpre : ¬ (goPathJoin [obj.storage.pathPrefix, pfx0] ≠ "" ∧
        goPathJoin [obj.storage.pathPrefix, pfx0] ≠ "/" ∧
        obj.storage.kind = "local-meta" ∧
        b.item (goPathJoin [obj.storage.pathPrefix, pfx0]) = ItemRes.notFound))
    (hitems : b.items (goPathJoin [obj.storage.pathPrefix, pfx0]) marker maxKeys =
      ItemsRes.ok items rm)
    (hdir : ∀ it ∈ items, isDir it ≠ none) :
    (ListOp b obj maxKeys dl pfx0 marker = none ↔
      items.any (fun it => it.id == "") = true) := by
  unfold ListOp
  simp only [hc]
  rw [if_neg (by simp)]
  rw [if_neg hpre, hitems]
  simp only []
  exact listOp_none_aux _ items _ hdir

/-- C10 witness: a backend listing one empty-id item makes the listing
fail, and one with a nonempty id completes. -/
theorem list_empty_id_w :
    ListOp bEmptyId oLocal 10 "" "p" "" = none ∧
    ListOp bGoodIds oLocal 10 "" "p" "" ≠ none :=
  ⟨(list_empty_id bEmptyId oLocal 10 "" "p" "" [itemNoId] "" rfl (by decide) rfl
      (by intro it hit; rw [List.mem_singleton] at hit; subst hit; decide)).mpr (by decide),
   fun h => absurd ((list_empty_id bGoodIds oLocal 10 "" "p" "" [itemGood] "" rfl
      (by decide) rfl
      (by intro it hit; rw [List.mem_singleton] at hit; subst hit; decide)).mp h)
     (by decide)⟩
